import Mathlib

/-!
Verification of the book-management admin page (src/admin.js).

The program keeps one in-memory array `bookData` of book objects, a sort state
stored in the sort button's `data-sort-order` attribute (absent, "asc" or
"desc"), a filter state stored in the category select's value, and the sort
button's visible label.  The handlers `handleAddBook`, `handleSort`,
`handleDelete` and the `change` listener on the filter mutate that state, and
`getProcessedBooks` derives the displayed projection.

JavaScript string builtins used by the code (`toUpperCase`, `trim`, `<` on
strings, `===`) are modelled on `List Char` so that every definition is
executable by the kernel.  JS compares strings by UTF-16 code units and
uppercases by the full Unicode mapping; the model compares by code point and
uppercases ASCII letters, which agree on ASCII data (all data the claims use).
`Array.prototype.sort` is required by the ECMAScript spec to be stable, and the
comparator below is derived from a total preorder on titles, so its result is
the stable insertion sort by that comparator, which `jsSort` implements.
-/

/-- Models `String.prototype.toUpperCase` (ASCII range): uppercase every
character. -/
def jsToUpper (s : String) : String := ⟨s.data.map Char.toUpper⟩

/-- Lexicographic strict comparison of character lists by code point; this is
JS `<` on strings restricted to the basic plane. -/
def ltCharList : List Char → List Char → Bool
  | [], [] => false
  | [], _ :: _ => true
  | _ :: _, [] => false
  | a :: as, b :: bs => if a < b then true else if b < a then false else ltCharList as bs

/-- Models the JS `<` operator on strings. -/
def jsStrLt (a b : String) : Bool := ltCharList a.data b.data

/-- Models `String.prototype.trim`: drop whitespace from both ends. -/
def jsTrim (s : String) : String :=
  ⟨((s.data.dropWhile Char.isWhitespace).reverse.dropWhile Char.isWhitespace).reverse⟩

/-- A book object as built by `handleAddBook` (src/admin.js lines 100-105). -/
structure Book where
  title : String
  author : String
  category : String
  imageUrl : String
  deriving DecidableEq

/-- The two values ever stored in the sort button's `data-sort-order`
attribute (src/admin.js lines 125-134). -/
inductive SortOrder where
  | asc
  | desc
  deriving DecidableEq

/-- The mutable page state: the `bookData` array (src/admin.js line 2), the
sort button's `data-sort-order` attribute (`none` when the attribute is
absent), the sort button's text, and the category select's value. -/
structure AppState where
  bookData : List Book
  sortOrder : Option SortOrder
  sortLabel : String
  filterValue : String

/-- The fixed cover image URL (src/admin.js line 5). -/
def DEFAULT_IMAGE_URL : String :=
  "https://m.media-amazon.com/images/I/71ZB18P3inl._SY522_.jpg"

/-- Modelled from the spec: the initial page state.  `bookData = []` is
src/admin.js line 2; the initial attribute/label/select values live in the
HTML page, which is not part of src/, so they follow the spec (sort state
unset, filter at the sentinel "All"; the initial label plays no role in any
claim). -/
def initState : AppState :=
  { bookData := [], sortOrder := none, sortLabel := "", filterValue := "All" }

/-- The comparator passed to `books.sort` in `getProcessedBooks`
(src/admin.js lines 61-72): compare uppercased titles, flip the sign for
descending order, return 0 on equal uppercased titles. -/
def titleCmp (sortOrder : SortOrder) (a b : Book) : Int :=
  let titleA := jsToUpper a.title
  let titleB := jsToUpper b.title
  if jsStrLt titleA titleB then (if sortOrder = SortOrder.asc then -1 else 1)
  else if jsStrLt titleB titleA then (if sortOrder = SortOrder.asc then 1 else -1)
  else 0

/-- Insert into a sorted list, placing `a` before the first element it does
not compare strictly greater than.  Used to express the stable sort mandated
for `Array.prototype.sort`. -/
def jsInsert (cmp : Book → Book → Int) (a : Book) : List Book → List Book
  | [] => [a]
  | b :: l => if cmp a b ≤ 0 then a :: b :: l else b :: jsInsert cmp a l

/-- The stable sort by a comparator: the result `Array.prototype.sort`
must produce for a comparator induced by a total preorder. -/
def jsSort (cmp : Book → Book → Int) : List Book → List Book
  | [] => []
  | b :: l => jsInsert cmp b (jsSort cmp l)

/-- Embeds `getProcessedBooks` (src/admin.js lines 49-76): copy `bookData`,
filter by the selected category unless it is "All", then sort by title when
the `data-sort-order` attribute is set. -/
def getProcessedBooks (st : AppState) : List Book :=
  let books := st.bookData
  let books :=
    if st.filterValue ≠ "All" then books.filter (fun book => book.category == st.filterValue)
    else books
  match st.sortOrder with
  | some ord => jsSort (titleCmp ord) books
  | none => books

/-- The value of the `books` variable after the filtering step of
`getProcessedBooks` (src/admin.js lines 52-56), used to state the sorting
claims relative to the filtered sequence. -/
def filteredBooks (st : AppState) : List Book :=
  if st.filterValue ≠ "All" then st.bookData.filter (fun book => book.category == st.filterValue)
  else st.bookData

/-- The uppercased title, the key the comparator orders by. -/
def bookKey (b : Book) : String := jsToUpper b.title

/-- Embeds `handleAddBook` (src/admin.js lines 93-115): build the new book
from the trimmed form inputs and the fixed image URL, push it onto
`bookData`.  Resetting the form and re-rendering do not touch the model
state. -/
def handleAddBook (title author category : String) (st : AppState) : AppState :=
  let newBook : Book :=
    { title := jsTrim title
      author := jsTrim author
      category := category
      imageUrl := DEFAULT_IMAGE_URL }
  { st with bookData := st.bookData ++ [newBook] }

/-- Embeds `handleSort` (src/admin.js lines 120-139): `'asc'` flips to
`'desc'` with label "Sort by Title Z → A"; any other current value (including
the absent attribute) becomes `'asc'` with label "Sort by Title A → Z". -/
def handleSort (st : AppState) : AppState :=
  match st.sortOrder with
  | some SortOrder.asc =>
      { st with sortOrder := some SortOrder.desc, sortLabel := "Sort by Title Z → A" }
  | _ =>
      { st with sortOrder := some SortOrder.asc, sortLabel := "Sort by Title A → Z" }

/-- Embeds `handleDelete` (src/admin.js lines 146-170) at the store level:
the handler recovers the clicked card's title and author from the DOM, finds
the first matching index in `bookData` with `findIndex` and splices it out;
`findIndex` returning `-1` (no match) is modelled by `findIdx` returning the
length, and then nothing is removed. -/
def handleDelete (bookTitle bookAuthor : String) (st : AppState) : AppState :=
  let mainIndex :=
    st.bookData.findIdx (fun book => book.title == bookTitle && book.author == bookAuthor)
  if mainIndex < st.bookData.length then
    { st with bookData := st.bookData.eraseIdx mainIndex }
  else st

/-- The `change` listener on the category select (src/admin.js line 177):
the select's value becomes the chosen category and the page re-renders. -/
def changeFilter (value : String) (st : AppState) : AppState :=
  { st with filterValue := value }

/-- One user action the page reacts to. -/
inductive UserAction where
  | add (title author category : String)
  | sortClick
  | deleteClick (title author : String)
  | filterChange (value : String)

/-- Dispatch of one user action to its handler. -/
def stepAction : UserAction → AppState → AppState
  | UserAction.add t a c => handleAddBook t a c
  | UserAction.sortClick => handleSort
  | UserAction.deleteClick t a => handleDelete t a
  | UserAction.filterChange v => changeFilter v

/-- The state after a sequence of user actions. -/
def runActions (acts : List UserAction) (st : AppState) : AppState :=
  acts.foldl (fun s e => stepAction e s) st

/-- A store of JS arrays addressed by reference, used to state that
`getProcessedBooks` never mutates `bookData` and returns a fresh array. -/
structure Heap where
  arrays : Nat → List Book
  next : Nat

/-- Allocate a fresh array holding `v`. -/
def Heap.alloc (h : Heap) (v : List Book) : Nat × Heap :=
  (h.next, { arrays := fun i => if i = h.next then v else h.arrays i, next := h.next + 1 })

/-- Overwrite the array at reference `r` (an in-place mutation). -/
def Heap.write (h : Heap) (r : Nat) (v : List Book) : Heap :=
  { h with arrays := fun i => if i = r then v else h.arrays i }

/-- Embeds `getProcessedBooks` (src/admin.js lines 49-76) at the heap level:
`[...bookData]` allocates a fresh copy, `Array.prototype.filter` allocates a
fresh array, and `Array.prototype.sort` mutates in place the array it is
called on.  Returns the reference handed to the caller and the final heap. -/
def getProcessedBooksRef (storeRef : Nat) (filterValue : String)
    (sortOrder : Option SortOrder) (h : Heap) : Nat × Heap :=
  let p0 := h.alloc (h.arrays storeRef)
  let p1 :=
    if filterValue ≠ "All" then
      p0.2.alloc ((p0.2.arrays p0.1).filter (fun book => book.category == filterValue))
    else p0
  let h2 :=
    match sortOrder with
    | some ord => p1.2.write p1.1 (jsSort (titleCmp ord) (p1.2.arrays p1.1))
    | none => p1.2
  (p1.1, h2)

/-- The first book of the worked scenario in the spec (§8). -/
def bookDune : Book :=
  { title := "Dune", author := "Frank Herbert", category := "Technical",
    imageUrl := DEFAULT_IMAGE_URL }

/-- The second book of the worked scenario in the spec (§8). -/
def bookCleanCode : Book :=
  { title := "Clean Code", author := "Robert Martin", category := "Technical",
    imageUrl := DEFAULT_IMAGE_URL }

/-- The third book of the worked scenario in the spec (§8). -/
def bookCalvin : Book :=
  { title := "Calvin and Hobbes", author := "Bill Watterson", category := "Comedy",
    imageUrl := DEFAULT_IMAGE_URL }

/-- The state of the spec's §8 scenario: add the three books, toggle the sort
once (to ascending), then delete "Clean Code"/"Robert Martin". -/
def scenarioState : AppState :=
  handleDelete "Clean Code" "Robert Martin"
    (handleSort
      (handleAddBook "Calvin and Hobbes" "Bill Watterson" "Comedy"
        (handleAddBook "Clean Code" "Robert Martin" "Technical"
          (handleAddBook "Dune" "Frank Herbert" "Technical" initState))))

/-- A book used as a concrete duplicate in witnesses. -/
def bookT : Book :=
  { title := "T", author := "A", category := "Technical", imageUrl := DEFAULT_IMAGE_URL }

/-- A two-element store holding the same book twice, for the delete witness. -/
def dupState : AppState :=
  { bookData := [bookT, bookT], sortOrder := none, sortLabel := "", filterValue := "All" }

/-- A state with the three scenario books and ascending sort, for witnesses. -/
def sortedWitnessState : AppState :=
  { bookData := [bookDune, bookCleanCode, bookCalvin], sortOrder := some SortOrder.asc,
    sortLabel := "Sort by Title A → Z", filterValue := "All" }

/-- A one-array heap for the purity witness. -/
def witnessHeap : Heap :=
  { arrays := fun i => if i = 0 then [bookDune] else [], next := 1 }

theorem ltCharList_iff : ∀ s t : List Char, ltCharList s t = true ↔ s < t := by
  intro s
  induction s with
  | nil =>
    intro t
    cases t with
    | nil =>
      constructor
      · intro h; exact absurd h (by simp [ltCharList])
      · intro h; exact absurd h (List.Lex.not_nil_right _ _)
    | cons b bs =>
      constructor
      · intro _; exact List.Lex.nil
      · intro _; rfl
  | cons a as ih =>
    intro t
    cases t with
    | nil =>
      constructor
      · intro h; exact absurd h (by simp [ltCharList])
      · intro h; exact absurd h (List.Lex.not_nil_right _ _)
    | cons b bs =>
      by_cases hab : a < b
      · constructor
        · intro _; exact List.Lex.rel hab
        · intro _; simp [ltCharList, hab]
      · by_cases hba : b < a
        · constructor
          · intro h
            rw [ltCharList, if_neg hab, if_pos hba] at h
            exact absurd h (by simp)
          · intro h
            cases h with
            | cons h => exact absurd hba (lt_irrefl _)
            | rel h => exact absurd h hab
        · have hab2 : a = b := le_antisymm (not_lt.mp hba) (not_lt.mp hab)
          subst hab2
          rw [ltCharList, if_neg hab, if_neg hba]
          exact (ih bs).trans List.Lex.cons_iff.symm

theorem jsStrLt_iff (a b : String) : jsStrLt a b = true ↔ a < b := by
  rw [jsStrLt, ltCharList_iff, String.lt_iff_toList_lt]
  exact Iff.rfl

theorem jsStrLt_false_iff (a b : String) : jsStrLt a b = false ↔ b ≤ a := by
  constructor
  · intro h
    by_contra hle
    rw [not_le] at hle
    have := (jsStrLt_iff a b).mpr hle
    rw [this] at h
    cases h
  · intro h
    cases hb : jsStrLt a b
    · rfl
    · exact absurd ((jsStrLt_iff a b).mp hb) (not_lt.mpr h)

theorem titleCmp_nonpos_asc (a b : Book) :
    titleCmp SortOrder.asc a b ≤ 0 ↔ bookKey a ≤ bookKey b := by
  cases h1 : jsStrLt (jsToUpper a.title) (jsToUpper b.title) with
  | true =>
    have hlt := (jsStrLt_iff _ _).mp h1
    simp [titleCmp, bookKey, h1]
    exact le_of_lt (String.lt_iff_toList_lt.mp hlt)
  | false =>
    cases h2 : jsStrLt (jsToUpper b.title) (jsToUpper a.title) with
    | true =>
      have hlt := (jsStrLt_iff _ _).mp h2
      simp [titleCmp, bookKey, h1, h2]
      exact String.lt_iff_toList_lt.mp hlt
    | false =>
      simp [titleCmp, bookKey, h1, h2]
      exact String.le_iff_toList_le.mp ((jsStrLt_false_iff _ _).mp h2)

theorem titleCmp_nonpos_desc (a b : Book) :
    titleCmp SortOrder.desc a b ≤ 0 ↔ bookKey b ≤ bookKey a := by
  cases h1 : jsStrLt (jsToUpper a.title) (jsToUpper b.title) with
  | true =>
    have hlt := (jsStrLt_iff _ _).mp h1
    simp [titleCmp, bookKey, h1]
    exact String.lt_iff_toList_lt.mp hlt
  | false =>
    cases h2 : jsStrLt (jsToUpper b.title) (jsToUpper a.title) with
    | true =>
      have hlt := (jsStrLt_iff _ _).mp h2
      simp [titleCmp, bookKey, h1, h2]
      exact le_of_lt (String.lt_iff_toList_lt.mp hlt)
    | false =>
      simp [titleCmp, bookKey, h1, h2]
      exact String.le_iff_toList_le.mp ((jsStrLt_false_iff _ _).mp h1)

theorem titleCmp_eq_zero (ord : SortOrder) (a b : Book) (h : bookKey a = bookKey b) :
    titleCmp ord a b = 0 := by
  simp only [bookKey] at h
  have h1 : jsStrLt (jsToUpper a.title) (jsToUpper b.title) = false :=
    (jsStrLt_false_iff _ _).mpr (le_of_eq h.symm)
  have h2 : jsStrLt (jsToUpper b.title) (jsToUpper a.title) = false :=
    (jsStrLt_false_iff _ _).mpr (le_of_eq h)
  simp [titleCmp, h1, h2]

theorem jsInsert_perm (cmp : Book → Book → Int) (a : Book) :
    ∀ l : List Book, (jsInsert cmp a l).Perm (a :: l) := by
  intro l
  induction l with
  | nil => simp [jsInsert]
  | cons b l ih =>
    by_cases h : cmp a b ≤ 0
    · simp [jsInsert, h]
    · rw [jsInsert, if_neg h]
      exact (ih.cons b).trans (List.Perm.swap a b l)

theorem jsSort_perm (cmp : Book → Book → Int) :
    ∀ l : List Book, (jsSort cmp l).Perm l := by
  intro l
  induction l with
  | nil => simp [jsSort]
  | cons b l ih =>
    rw [jsSort]
    exact ((jsInsert_perm cmp b (jsSort cmp l)).trans (ih.cons b))

theorem jsInsert_pairwise (cmp : Book → Book → Int)
    (htot : ∀ x y, cmp x y ≤ 0 ∨ cmp y x ≤ 0)
    (htrans : ∀ x y z, cmp x y ≤ 0 → cmp y z ≤ 0 → cmp x z ≤ 0) (a : Book) :
    ∀ l : List Book, List.Pairwise (fun x y => cmp x y ≤ 0) l →
      List.Pairwise (fun x y => cmp x y ≤ 0) (jsInsert cmp a l) := by
  intro l
  induction l with
  | nil => intro _; simp [jsInsert]
  | cons b l ih =>
    intro hp
    rw [List.pairwise_cons] at hp
    obtain ⟨hb, hl⟩ := hp
    by_cases h : cmp a b ≤ 0
    · rw [jsInsert, if_pos h, List.pairwise_cons]
      refine ⟨?_, List.pairwise_cons.mpr ⟨hb, hl⟩⟩
      intro y hy
      rcases List.mem_cons.mp hy with rfl | hy
      · exact h
      · exact htrans a b y h (hb y hy)
    · rw [jsInsert, if_neg h, List.pairwise_cons]
      refine ⟨?_, ih hl⟩
      intro y hy
      have hy2 := (jsInsert_perm cmp a l).mem_iff.mp hy
      rcases List.mem_cons.mp hy2 with rfl | hy3
      · rcases htot y b with hc | hc
        · exact absurd hc h
        · exact hc
      · exact hb y hy3

theorem jsSort_pairwise (cmp : Book → Book → Int)
    (htot : ∀ x y, cmp x y ≤ 0 ∨ cmp y x ≤ 0)
    (htrans : ∀ x y z, cmp x y ≤ 0 → cmp y z ≤ 0 → cmp x z ≤ 0) :
    ∀ l : List Book, List.Pairwise (fun x y => cmp x y ≤ 0) (jsSort cmp l) := by
  intro l
  induction l with
  | nil => simp [jsSort]
  | cons b l ih =>
    rw [jsSort]
    exact jsInsert_pairwise cmp htot htrans b (jsSort cmp l) ih

theorem jsInsert_filter_ne (cmp : Book → Book → Int) (a : Book) (k : String)
    (hk : ¬ bookKey a = k) :
    ∀ l : List Book, (jsInsert cmp a l).filter (fun b => bookKey b == k)
      = l.filter (fun b => bookKey b == k) := by
  intro l
  induction l with
  | nil => simp [jsInsert, hk]
  | cons b l ih =>
    by_cases h : cmp a b ≤ 0
    · rw [jsInsert, if_pos h]
      simp [List.filter_cons, hk]
    · rw [jsInsert, if_neg h]
      simp only [List.filter_cons, ih]

theorem jsInsert_filter_eq (cmp : Book → Book → Int) (a : Book)
    (hall : ∀ x, bookKey x = bookKey a → cmp a x ≤ 0) :
    ∀ l : List Book, (jsInsert cmp a l).filter (fun b => bookKey b == bookKey a)
      = a :: l.filter (fun b => bookKey b == bookKey a) := by
  intro l
  induction l with
  | nil => simp [jsInsert]
  | cons b l ih =>
    by_cases h : cmp a b ≤ 0
    · rw [jsInsert, if_pos h]
      simp [List.filter_cons]
    · rw [jsInsert, if_neg h]
      have hb : ¬ bookKey b = bookKey a := fun he => h (hall b he)
      simp only [List.filter_cons, ih]
      simp [hb]

theorem jsSort_filter (cmp : Book → Book → Int)
    (hcmp : ∀ x y, bookKey x = bookKey y → cmp x y ≤ 0) (k : String) :
    ∀ l : List Book, (jsSort cmp l).filter (fun b => bookKey b == k)
      = l.filter (fun b => bookKey b == k) := by
  intro l
  induction l with
  | nil => rfl
  | cons a l ih =>
    rw [jsSort]
    by_cases hk : bookKey a = k
    · subst hk
      rw [jsInsert_filter_eq cmp a (fun x hx => hcmp a x hx.symm) (jsSort cmp l), ih]
      simp [List.filter_cons]
    · rw [jsInsert_filter_ne cmp a k hk (jsSort cmp l), ih]
      simp [List.filter_cons, hk]

theorem handleSort_bookData (st : AppState) : (handleSort st).bookData = st.bookData := by
  cases h : st.sortOrder with
  | none => simp [handleSort, h]
  | some o => cases o <;> simp [handleSort, h]

/-- C1 counterexample: in the §8 scenario (add Dune, Clean Code, Calvin and
Hobbes; toggle sort once; delete Clean Code/Robert Martin) the store does
hold 2 records, but the subsequent unfiltered projection is NOT
[Dune, Calvin and Hobbes]: the sort state persists as ascending, so the
projection is sorted by title, not in insertion order. -/
theorem scenario_projection_as_specified_fails :
    scenarioState.bookData.length = 2
    ∧ getProcessedBooks scenarioState ≠ [bookDune, bookCalvin] := by
  decide

/-- C1 (amended): after the §8 scenario the store holds exactly the two
records [Dune, Calvin and Hobbes] in insertion order, the sort state is
still ascending, and the subsequent unfiltered projection is therefore
[Calvin and Hobbes, Dune] (ascending by title). -/
theorem scenario_store_and_projection :
    scenarioState.bookData = [bookDune, bookCalvin]
    ∧ scenarioState.bookData.length = 2
    ∧ scenarioState.sortOrder = some SortOrder.asc
    ∧ getProcessedBooks scenarioState = [bookCalvin, bookDune] := by
  decide

/-- C2 counterexample: after the first activation of the sort toggle the
current sort state is ascending, yet the label reads "Sort by Title A → Z",
not "Sort by Title Z → A" as the claim requires for the ascending state. -/
theorem sort_label_next_action_fails :
    (handleSort initState).sortOrder = some SortOrder.asc
    ∧ (handleSort initState).sortLabel = "Sort by Title A → Z"
    ∧ (handleSort initState).sortLabel ≠ "Sort by Title Z → A" := by
  decide

/-- C2 (amended): after every activation of the sort toggle the label
reflects the sort that was just applied: "Sort by Title A → Z" whenever the
new sort state is ascending, and "Sort by Title Z → A" whenever the new sort
state is descending (the state is never unset after an activation). -/
theorem sort_label_reflects_current_order (st : AppState) :
    ((handleSort st).sortOrder = some SortOrder.asc
      ∧ (handleSort st).sortLabel = "Sort by Title A → Z")
    ∨ ((handleSort st).sortOrder = some SortOrder.desc
      ∧ (handleSort st).sortLabel = "Sort by Title Z → A") := by
  cases h : st.sortOrder with
  | none => exact Or.inl (by simp [handleSort, h])
  | some o =>
    cases o with
    | asc => exact Or.inr (by simp [handleSort, h])
    | desc => exact Or.inl (by simp [handleSort, h])

/-- C4 counterexample: the raw title " " is non-empty, so the browser-level
required-field check admits it, yet the Add operation stores a record whose
title is empty (the handler trims but never re-validates). -/
theorem add_whitespace_title_fails :
    (" " : String) ≠ ""
    ∧ (handleAddBook " " "A" "Comedy" initState).bookData
        = [{ title := "", author := "A", category := "Comedy", imageUrl := DEFAULT_IMAGE_URL }]
    ∧ ((handleAddBook " " "A" "Comedy" initState).bookData.map (fun b => b.title)) = [""] := by
  decide

/-- C4 (amended): Add stores the trimmed title and author, so every record
it appends has non-empty title and author provided the raw inputs are
non-empty AFTER trimming; the browser-level required check only rules out
entirely empty raw inputs, so a whitespace-only input still creates a record
with an empty field. -/
theorem add_preserves_nonempty_fields (t a c : String) (st : AppState)
    (ht : jsTrim t ≠ "") (ha : jsTrim a ≠ "")
    (hst : ∀ b, b ∈ st.bookData → b.title ≠ "" ∧ b.author ≠ "") :
    ∀ b, b ∈ (handleAddBook t a c st).bookData → b.title ≠ "" ∧ b.author ≠ "" := by
  intro b hb
  simp only [handleAddBook] at hb
  rcases List.mem_append.mp hb with h | h
  · exact hst b h
  · rw [List.mem_singleton] at h
    subst h
    exact ⟨ht, ha⟩

/-- Witness for the amended C4 theorem at concrete inputs " x ", " y ". -/
theorem add_preserves_nonempty_fields_witness :
    (Book.mk "x" "y" "Comedy" DEFAULT_IMAGE_URL).title ≠ ""
    ∧ (Book.mk "x" "y" "Comedy" DEFAULT_IMAGE_URL).author ≠ "" :=
  add_preserves_nonempty_fields " x " " y " "Comedy" initState (by decide) (by decide)
    (fun b hb => absurd hb (List.not_mem_nil b))
    (Book.mk "x" "y" "Comedy" DEFAULT_IMAGE_URL) (by decide)

/-- C6: with sort unset, projecting with a category other than "All" yields
exactly the records of that category, as a sublist of the store (hence in
store order), and projecting with "All" retains every record. -/
theorem filter_projection_exact (l : List Book) (c lbl : String) (hc : c ≠ "All") :
    getProcessedBooks ⟨l, none, lbl, c⟩ = l.filter (fun book => book.category == c)
    ∧ (getProcessedBooks ⟨l, none, lbl, c⟩).Sublist l
    ∧ (∀ b, b ∈ getProcessedBooks ⟨l, none, lbl, c⟩ ↔ b ∈ l ∧ b.category = c)
    ∧ getProcessedBooks ⟨l, none, lbl, "All"⟩ = l := by
  have h1 : getProcessedBooks ⟨l, none, lbl, c⟩ = l.filter (fun book => book.category == c) := by
    simp [getProcessedBooks, hc]
  refine ⟨h1, ?_, ?_, ?_⟩
  · rw [h1]; exact List.filter_sublist l
  · intro b
    rw [h1]
    simp [List.mem_filter]
  · simp [getProcessedBooks]

/-- Witness for C6 on the three scenario books with category "Technical". -/
theorem filter_projection_exact_witness :
    getProcessedBooks ⟨[bookDune, bookCleanCode, bookCalvin], none, "", "Technical"⟩
      = [bookDune, bookCleanCode] := by
  have h := (filter_projection_exact [bookDune, bookCleanCode, bookCalvin] "Technical" ""
    (by decide)).1
  exact h.trans (by decide)

/-- C7: projecting with filter "All" and unset sort state reproduces the
store's sequence exactly. -/
theorem project_all_unsorted_id (l : List Book) (lbl : String) :
    getProcessedBooks ⟨l, none, lbl, "All"⟩ = l := by
  simp [getProcessedBooks]

/-- C9: the sort state machine: unset goes to ascending on the first
activation, ascending and descending alternate, and after any positive
number of activations the state is never unset. -/
theorem sort_toggle_state_machine (st : AppState) :
    (st.sortOrder = none → (handleSort st).sortOrder = some SortOrder.asc)
    ∧ (st.sortOrder = some SortOrder.asc → (handleSort st).sortOrder = some SortOrder.desc)
    ∧ (st.sortOrder = some SortOrder.desc → (handleSort st).sortOrder = some SortOrder.asc)
    ∧ (∀ n : Nat, (handleSort^[n + 1] st).sortOrder ≠ none) := by
  have hne : ∀ s : AppState, (handleSort s).sortOrder ≠ none := by
    intro s
    cases hs : s.sortOrder with
    | none => simp [handleSort, hs]
    | some o => cases o <;> simp [handleSort, hs]
  refine ⟨?_, ?_, ?_, ?_⟩
  · intro h; simp [handleSort, h]
  · intro h; simp [handleSort, h]
  · intro h; simp [handleSort, h]
  · intro n
    rw [Function.iterate_succ_apply']
    exact hne _

/-- Witness for C9: from the initial (unset) state, one activation reaches
ascending and the state is no longer unset. -/
theorem sort_toggle_state_machine_witness :
    (handleSort initState).sortOrder = some SortOrder.asc
    ∧ (handleSort^[0 + 1] initState).sortOrder ≠ none :=
  ⟨(sort_toggle_state_machine initState).1 rfl,
    (sort_toggle_state_machine initState).2.2.2 0⟩

/-- C3: delete removes exactly the first record (lowest store index) whose
title and author both equal the given strings, leaving all the other records
(duplicates included) in their relative order (the take/drop form), and is a
no-op when no record matches. -/
theorem delete_removes_first_match (st : AppState) (t a : String) :
    ((∀ b, b ∈ st.bookData → ¬(b.title = t ∧ b.author = a)) → handleDelete t a st = st)
    ∧ (∀ i, (hi : i < st.bookData.length) →
        ((st.bookData.get ⟨i, hi⟩).title = t ∧ (st.bookData.get ⟨i, hi⟩).author = a) →
        (∀ j, (hj : j < i) → ¬((st.bookData.get ⟨j, Nat.lt_trans hj hi⟩).title = t
            ∧ (st.bookData.get ⟨j, Nat.lt_trans hj hi⟩).author = a)) →
        (handleDelete t a st).bookData = st.bookData.take i ++ st.bookData.drop (i + 1)) := by
  have hbool : ∀ b : Book, (b.title == t && b.author == a) = false ↔ ¬(b.title = t ∧ b.author = a) := by
    intro b
    constructor
    · intro h hc
      rw [hc.1, hc.2] at h
      simp at h
    · intro h
      cases hx : (b.title == t && b.author == a)
      · rfl
      · exact absurd (by simpa [Bool.and_eq_true, beq_iff_eq] using hx) h
  constructor
  · intro hnone
    have hfalse : ∀ b ∈ st.bookData, (b.title == t && b.author == a) = false := by
      intro b hb
      exact (hbool b).mpr (hnone b hb)
    have hidx : st.bookData.findIdx (fun book => book.title == t && book.author == a)
        = st.bookData.length :=
      List.findIdx_eq_length_of_false hfalse
    simp [handleDelete, hidx]
  · intro i hi hmatch hbefore
    have hidx : st.bookData.findIdx (fun book => book.title == t && book.author == a) = i := by
      rw [List.findIdx_eq hi]
      constructor
      · have h1 := hmatch.1
        have h2 := hmatch.2
        rw [List.get_eq_getElem] at h1 h2
        simp [h1, h2]
      · intro j hj
        have hn := hbefore j hj
        rw [List.get_eq_getElem] at hn
        exact (hbool _).mpr hn
    have hdel : handleDelete t a st = { st with bookData := st.bookData.eraseIdx i } := by
      simp [handleDelete, hidx, hi]
    rw [hdel]
    exact List.eraseIdx_eq_take_drop_succ st.bookData i

/-- Witness for C3: deleting from a store holding the same book twice removes
only the first copy. -/
theorem delete_removes_first_match_witness :
    (handleDelete "T" "A" dupState).bookData = [bookT] := by
  have h := (delete_removes_first_match dupState "T" "A").2 0 (by decide)
    (by decide) (fun j hj => absurd hj (Nat.not_lt_zero j))
  exact h.trans (by decide)

/-- C5: for any state whose sort attribute is set, the projection is a
permutation of the filtered sequence, it is ordered by uppercased title
(ascending or descending according to the state), and records with equal
uppercased titles keep their relative order from the filtered input (the
per-key filter is preserved, which is exactly the stability of a comparator
returning 0 on equal keys). -/
theorem sorted_projection_ordered_and_stable (st : AppState) (ord : SortOrder)
    (hso : st.sortOrder = some ord) :
    (getProcessedBooks st).Perm (filteredBooks st)
    ∧ (ord = SortOrder.asc →
        List.Pairwise (fun x y => bookKey x ≤ bookKey y) (getProcessedBooks st))
    ∧ (ord = SortOrder.desc →
        List.Pairwise (fun x y => bookKey y ≤ bookKey x) (getProcessedBooks st))
    ∧ (∀ k, (getProcessedBooks st).filter (fun b => bookKey b == k)
        = (filteredBooks st).filter (fun b => bookKey b == k)) := by
  have hg : getProcessedBooks st = jsSort (titleCmp ord) (filteredBooks st) := by
    simp [getProcessedBooks, filteredBooks, hso]
  refine ⟨?_, ?_, ?_, ?_⟩
  · rw [hg]; exact jsSort_perm _ _
  · rintro rfl
    rw [hg]
    have htot : ∀ x y, titleCmp SortOrder.asc x y ≤ 0 ∨ titleCmp SortOrder.asc y x ≤ 0 := by
      intro x y
      rcases le_total (bookKey x) (bookKey y) with h | h
      · exact Or.inl ((titleCmp_nonpos_asc x y).mpr h)
      · exact Or.inr ((titleCmp_nonpos_asc y x).mpr h)
    have htrans : ∀ x y z, titleCmp SortOrder.asc x y ≤ 0 → titleCmp SortOrder.asc y z ≤ 0 →
        titleCmp SortOrder.asc x z ≤ 0 := by
      intro x y z hxy hyz
      exact (titleCmp_nonpos_asc x z).mpr
        (le_trans ((titleCmp_nonpos_asc x y).mp hxy) ((titleCmp_nonpos_asc y z).mp hyz))
    exact (jsSort_pairwise _ htot htrans (filteredBooks st)).imp
      (fun hxy => (titleCmp_nonpos_asc _ _).mp hxy)
  · rintro rfl
    rw [hg]
    have htot : ∀ x y, titleCmp SortOrder.desc x y ≤ 0 ∨ titleCmp SortOrder.desc y x ≤ 0 := by
      intro x y
      rcases le_total (bookKey y) (bookKey x) with h | h
      · exact Or.inl ((titleCmp_nonpos_desc x y).mpr h)
      · exact Or.inr ((titleCmp_nonpos_desc y x).mpr h)
    have htrans : ∀ x y z, titleCmp SortOrder.desc x y ≤ 0 → titleCmp SortOrder.desc y z ≤ 0 →
        titleCmp SortOrder.desc x z ≤ 0 := by
      intro x y z hxy hyz
      exact (titleCmp_nonpos_desc x z).mpr
        (le_trans ((titleCmp_nonpos_desc y z).mp hyz) ((titleCmp_nonpos_desc x y).mp hxy))
    exact (jsSort_pairwise _ htot htrans (filteredBooks st)).imp
      (fun hxy => (titleCmp_nonpos_desc _ _).mp hxy)
  · intro k
    rw [hg]
    exact jsSort_filter (titleCmp ord)
      (fun x y hxy => le_of_eq (titleCmp_eq_zero ord x y hxy)) k (filteredBooks st)

/-- Witness for C5: the ascending projection of the three scenario books is
ordered by uppercased title. -/
theorem sorted_projection_ordered_and_stable_witness :
    List.Pairwise (fun x y => bookKey x ≤ bookKey y) (getProcessedBooks sortedWitnessState) :=
  (sorted_projection_ordered_and_stable sortedWitnessState SortOrder.asc rfl).2.1 rfl

/-- C10: along every sequence of user actions from the initial state, every
record in the store carries the fixed default image URL as its cover, which
in particular is never the empty string, so a missing-image condition cannot
arise for a stored record. -/
theorem image_url_invariant (acts : List UserAction) :
    ∀ b, b ∈ (runActions acts initState).bookData →
      b.imageUrl = DEFAULT_IMAGE_URL ∧ b.imageUrl ≠ "" := by
  have hstep : ∀ (e : UserAction) (st : AppState),
      (∀ b, b ∈ st.bookData → b.imageUrl = DEFAULT_IMAGE_URL) →
      ∀ b, b ∈ (stepAction e st).bookData → b.imageUrl = DEFAULT_IMAGE_URL := by
    intro e st hst b hb
    cases e with
    | add t a c =>
      simp only [stepAction, handleAddBook] at hb
      rcases List.mem_append.mp hb with h | h
      · exact hst b h
      · rw [List.mem_singleton] at h
        subst h
        rfl
    | sortClick =>
      rw [stepAction, handleSort_bookData] at hb
      exact hst b hb
    | deleteClick t a =>
      simp only [stepAction, handleDelete] at hb
      split at hb
      · exact hst b (List.eraseIdx_subset _ _ hb)
      · exact hst b hb
    | filterChange v =>
      simp only [stepAction, changeFilter] at hb
      exact hst b hb
  have hrun : ∀ (acts : List UserAction) (st : AppState),
      (∀ b, b ∈ st.bookData → b.imageUrl = DEFAULT_IMAGE_URL) →
      ∀ b, b ∈ (runActions acts st).bookData → b.imageUrl = DEFAULT_IMAGE_URL := by
    intro acts
    induction acts with
    | nil => intro st hst; exact hst
    | cons e acts ih =>
      intro st hst
      exact ih (stepAction e st) (hstep e st hst)
  intro b hb
  have h1 := hrun acts initState (fun b hb => absurd hb (List.not_mem_nil b)) b hb
  refine ⟨h1, ?_⟩
  rw [h1]
  decide

/-- Witness for C10: after one add, the stored record carries the default
image URL. -/
theorem image_url_invariant_witness :
    bookDune.imageUrl = DEFAULT_IMAGE_URL ∧ bookDune.imageUrl ≠ "" :=
  image_url_invariant [UserAction.add "Dune" "Frank Herbert" "Technical"] bookDune (by decide)

/-- C8: the heap-level run of `getProcessedBooks` leaves the store's array
untouched, hands back a reference distinct from the store's, writing through
the returned reference still leaves the store untouched (the result is a
copy), and the returned array's contents agree with the pure projection.
The filter and sort state are only read (they are plain value parameters
here), so they are unchanged by construction. -/
theorem projection_pure_frame (h : Heap) (storeRef : Nat) (fv lbl : String)
    (so : Option SortOrder) (hlt : storeRef < h.next) :
    (getProcessedBooksRef storeRef fv so h).2.arrays storeRef = h.arrays storeRef
    ∧ (getProcessedBooksRef storeRef fv so h).1 ≠ storeRef
    ∧ (∀ v, (((getProcessedBooksRef storeRef fv so h).2.write
          (getProcessedBooksRef storeRef fv so h).1 v).arrays) storeRef = h.arrays storeRef)
    ∧ (getProcessedBooksRef storeRef fv so h).2.arrays (getProcessedBooksRef storeRef fv so h).1
        = getProcessedBooks ⟨h.arrays storeRef, so, lbl, fv⟩ := by
  have hne0 : ¬(storeRef = h.next) := Nat.ne_of_lt hlt
  have hne1 : ¬(storeRef = h.next + 1) := by omega
  have hne0s : ¬(h.next = storeRef) := fun he => hne0 he.symm
  have hne1s : ¬(h.next + 1 = storeRef) := fun he => hne1 he.symm
  by_cases hfv : fv ≠ "All" <;> cases so <;>
    simp [getProcessedBooksRef, Heap.alloc, Heap.write, getProcessedBooks,
      hfv, hne0, hne1, hne0s, hne1s]

/-- Witness for C8 on a one-array heap holding [Dune]. -/
theorem projection_pure_frame_witness :
    (getProcessedBooksRef 0 "All" none witnessHeap).1 ≠ 0
    ∧ (getProcessedBooksRef 0 "All" none witnessHeap).2.arrays 0 = witnessHeap.arrays 0
    ∧ (((getProcessedBooksRef 0 "All" none witnessHeap).2.write
        (getProcessedBooksRef 0 "All" none witnessHeap).1 []).arrays) 0 = witnessHeap.arrays 0 :=
  ⟨(projection_pure_frame witnessHeap 0 "All" "" none (by decide)).2.1,
   (projection_pure_frame witnessHeap 0 "All" "" none (by decide)).1,
   (projection_pure_frame witnessHeap 0 "All" "" none (by decide)).2.2.1 []⟩
